import Mathlib

/-!
Verification development for the Chain Reaction / Base Reaction game engine.

The repository ships only the presentation layer (GameBoard.tsx and an App
router).  The cascade engine, turn state machine and engine facade are
described by the design document but their code is not in the repository,
so every engine definition below is modelled from the spec text and is
marked as such in its doc comment.  The GameBoard component definitions at
the end of the file are translated directly from
src/client/src/components/Game/GameBoard.tsx.
-/

namespace ChainReaction

/-- Player identity (an enumerated id; we use natural numbers). -/
abbrev Player := Nat

/-- Modelled from the spec: one grid position with `owner` and `orbCount`
(section 3, Cell). -/
structure Cell where
  owner : Option Player
  orbCount : Nat
deriving Repr, DecidableEq

/-- Modelled from the spec: the rectangular board (section 3, Grid).  The
content is a total function; only indices below `rows` and `cols` are
meaningful board cells. -/
structure Grid where
  rows : Nat
  cols : Nat
  cells : Nat → Nat → Cell

/-- Modelled from the spec: how many of the four board sides the cell
(r, c) touches; 2 or more means corner, 1 means edge, 0 means interior. -/
def boundarySides (rows cols r c : Nat) : Nat :=
  (if r = 0 then 1 else 0) + (if r + 1 = rows then 1 else 0) +
  (if c = 0 then 1 else 0) + (if c + 1 = cols then 1 else 0)

/-- Modelled from the spec: capacity derived from position, corner = 1,
edge = 2, interior = 3 (section 3, Cell). -/
def capacity (rows cols r c : Nat) : Nat :=
  3 - min (boundarySides rows cols r c) 2

/-- Modelled from the spec: the up-to-4 orthogonal neighbors that exist on
the board (section 4.2 step 3). -/
def neighbors (rows cols r c : Nat) : List (Nat × Nat) :=
  (if 0 < r then [(r - 1, c)] else []) ++
  (if r + 1 < rows then [(r + 1, c)] else []) ++
  (if 0 < c then [(r, c - 1)] else []) ++
  (if c + 1 < cols then [(r, c + 1)] else [])

/-- Replace the cell at (r, c). -/
def setCell (g : Grid) (r c : Nat) (v : Cell) : Grid :=
  { g with cells := fun r' c' => if r' = r ∧ c' = c then v else g.cells r' c' }

/-- Total number of orbs on the board. -/
def totalOrbs (g : Grid) : Nat :=
  ∑ r ∈ Finset.range g.rows, ∑ c ∈ Finset.range g.cols, (g.cells r c).orbCount

/-- A cell currently holds more orbs than its capacity (the explosion
trigger of section 4.2 step 3). -/
def overflowAt (g : Grid) (p : Nat × Nat) : Bool :=
  decide (capacity g.rows g.cols p.1 p.2 < (g.cells p.1 p.2).orbCount)

/-- Every board cell holds at most its capacity: the stable-state
invariant of section 3. -/
def gridStable (g : Grid) : Prop :=
  ∀ r < g.rows, ∀ c < g.cols,
    (g.cells r c).orbCount ≤ capacity g.rows g.cols r c

instance (g : Grid) : Decidable (gridStable g) := by
  unfold gridStable; infer_instance

-- Basic facts about capacity and neighbors.

theorem capacity_pos (rows cols r c : Nat) : 1 ≤ capacity rows cols r c := by
  unfold capacity
  omega

theorem mem_neighbors_bounds {rows cols r c : Nat} (hr : r < rows) (hc : c < cols) :
    ∀ n ∈ neighbors rows cols r c, n.1 < rows ∧ n.2 < cols := by
  intro n hn
  unfold neighbors at hn
  rcases List.mem_append.mp hn with h4 | h4
  · rcases List.mem_append.mp h4 with h3 | h3
    · rcases List.mem_append.mp h3 with h2 | h2
      · by_cases h : 0 < r
        · simp only [if_pos h, List.mem_singleton] at h2
          subst h2
          exact ⟨show r - 1 < rows by omega, hc⟩
        · simp [if_neg h] at h2
      · by_cases h : r + 1 < rows
        · simp only [if_pos h, List.mem_singleton] at h2
          subst h2
          exact ⟨h, hc⟩
        · simp [if_neg h] at h2
    · by_cases h : 0 < c
      · simp only [if_pos h, List.mem_singleton] at h3
        subst h3
        exact ⟨hr, show c - 1 < cols by omega⟩
      · simp [if_neg h] at h3
  · by_cases h : c + 1 < cols
    · simp only [if_pos h, List.mem_singleton] at h4
      subst h4
      exact ⟨hr, h⟩
    · simp [if_neg h] at h4

theorem length_neighbors_le {rows cols r c : Nat} (hr : r < rows) (hc : c < cols) :
    (neighbors rows cols r c).length ≤ capacity rows cols r c + 1 := by
  unfold neighbors capacity boundarySides
  simp only [List.length_append, apply_ite List.length, List.length_singleton,
    List.length_nil]
  split_ifs <;> omega

theorem self_not_mem_neighbors (rows cols r c : Nat) :
    (r, c) ∉ neighbors rows cols r c := by
  intro hn
  unfold neighbors at hn
  rcases List.mem_append.mp hn with h4 | h4
  · rcases List.mem_append.mp h4 with h3 | h3
    · rcases List.mem_append.mp h3 with h2 | h2
      · by_cases h : 0 < r
        · simp only [if_pos h, List.mem_singleton, Prod.mk.injEq] at h2
          omega
        · simp [if_neg h] at h2
      · by_cases h : r + 1 < rows
        · simp only [if_pos h, List.mem_singleton, Prod.mk.injEq] at h2
          omega
        · simp [if_neg h] at h2
    · by_cases h : 0 < c
      · simp only [if_pos h, List.mem_singleton, Prod.mk.injEq] at h3
        omega
      · simp [if_neg h] at h3
  · by_cases h : c + 1 < cols
    · simp only [if_pos h, List.mem_singleton, Prod.mk.injEq] at h4
      omega
    · simp [if_neg h] at h4

-- Lemmas about single-cell grid updates.

theorem setCell_rows (g : Grid) (r c : Nat) (v : Cell) :
    (setCell g r c v).rows = g.rows := rfl

theorem setCell_cols (g : Grid) (r c : Nat) (v : Cell) :
    (setCell g r c v).cols = g.cols := rfl

theorem cells_setCell_same (g : Grid) (r c : Nat) (v : Cell) :
    (setCell g r c v).cells r c = v := by
  simp [setCell]

theorem cells_setCell_ne (g : Grid) (r c : Nat) (v : Cell) {r' c' : Nat}
    (h : ¬(r' = r ∧ c' = c)) :
    (setCell g r c v).cells r' c' = g.cells r' c' := by
  simp [setCell, h]

theorem totalOrbs_setCell (g : Grid) (r c : Nat) (v : Cell)
    (hr : r < g.rows) (hc : c < g.cols) :
    totalOrbs (setCell g r c v) + (g.cells r c).orbCount
      = totalOrbs g + v.orbCount := by
  unfold totalOrbs
  rw [setCell_rows, setCell_cols]
  have hrmem : r ∈ Finset.range g.rows := Finset.mem_range.mpr hr
  have hcmem : c ∈ Finset.range g.cols := Finset.mem_range.mpr hc
  have houter : ∀ gg : Grid,
      (∑ a ∈ Finset.range g.rows, ∑ b ∈ Finset.range g.cols, (gg.cells a b).orbCount)
        = (∑ a ∈ (Finset.range g.rows).erase r,
            ∑ b ∈ Finset.range g.cols, (gg.cells a b).orbCount)
          + ∑ b ∈ Finset.range g.cols, (gg.cells r b).orbCount := by
    intro gg
    rw [Finset.sum_erase_add _ _ hrmem]
  rw [houter (setCell g r c v), houter g]
  have herase : (∑ a ∈ (Finset.range g.rows).erase r,
      ∑ b ∈ Finset.range g.cols, ((setCell g r c v).cells a b).orbCount)
        = ∑ a ∈ (Finset.range g.rows).erase r,
            ∑ b ∈ Finset.range g.cols, (g.cells a b).orbCount := by
    refine Finset.sum_congr rfl ?_
    intro a ha
    refine Finset.sum_congr rfl ?_
    intro b _
    rw [cells_setCell_ne]
    intro hab
    exact (Finset.ne_of_mem_erase ha) hab.1
  rw [herase]
  have hinner : ∀ gg : Grid,
      (∑ b ∈ Finset.range g.cols, (gg.cells r b).orbCount)
        = (∑ b ∈ (Finset.range g.cols).erase c, (gg.cells r b).orbCount)
          + (gg.cells r c).orbCount := by
    intro gg
    rw [Finset.sum_erase_add _ _ hcmem]
  rw [hinner (setCell g r c v), hinner g]
  have hinner2 : (∑ b ∈ (Finset.range g.cols).erase c,
      ((setCell g r c v).cells r b).orbCount)
        = ∑ b ∈ (Finset.range g.cols).erase c, (g.cells r b).orbCount := by
    refine Finset.sum_congr rfl ?_
    intro b hb
    rw [cells_setCell_ne]
    intro hab
    exact (Finset.ne_of_mem_erase hb) hab.2
  rw [hinner2, cells_setCell_same]
  omega

theorem totalOrbs_congr_orb (g g' : Grid) (hrows : g'.rows = g.rows)
    (hcols : g'.cols = g.cols)
    (h : ∀ r c, (g'.cells r c).orbCount = (g.cells r c).orbCount) :
    totalOrbs g' = totalOrbs g := by
  unfold totalOrbs
  rw [hrows, hcols]
  exact Finset.sum_congr rfl fun a _ => Finset.sum_congr rfl fun b _ => h a b

/-- Modelled from the spec: the kind of an HQ-affecting event
(section 3, DamageEvent). -/
inductive EventType where
  | damage
  | heal
  | destroyed
deriving Repr, DecidableEq

/-- Modelled from the spec: an HQ-affecting event record (section 3,
DamageEvent).  The wall-clock timestamp field is not modelled. -/
structure DamageEvent where
  row : Nat
  col : Nat
  type : EventType
deriving Repr, DecidableEq

/-- Modelled from the spec: an HQ cell with fixed position, owning player
and current health (section 3, HQCell). -/
structure HQ where
  row : Nat
  col : Nat
  owner : Player
  health : Nat
deriving Repr, DecidableEq

/-- Modelled from the spec: the error taxonomy of section 7.  `Busy` is
omitted because the engine is synchronous and the model has no
mid-resolution states. -/
inductive MoveError where
  | invalidMove
  | matchEnded
  | engineInvariantViolation
deriving Repr, DecidableEq

instance {e a : Type} [DecidableEq e] [DecidableEq a] :
    DecidableEq (Except e a) := fun x y =>
  match x, y with
  | .ok v, .ok w =>
    if h : v = w then .isTrue (by rw [h])
    else .isFalse (by intro hh; cases hh; exact h rfl)
  | .error v, .error w =>
    if h : v = w then .isTrue (by rw [h])
    else .isFalse (by intro hh; cases hh; exact h rfl)
  | .ok _, .error _ => .isFalse (by intro hh; cases hh)
  | .error _, .ok _ => .isFalse (by intro hh; cases hh)

/-- The HQ sitting at a position, when there is one. -/
def hqAt (hqs : List HQ) (p : Nat × Nat) : Option HQ :=
  hqs.find? (fun h => decide (h.row = p.1 ∧ h.col = p.2))

/-- Current health of the HQ at a position (0 when there is none). -/
def healthAt (hqs : List HQ) (p : Nat × Nat) : Nat :=
  match hqAt hqs p with
  | some h => h.health
  | none => 0

/-- One point of damage to the HQ at a position, identity elsewhere. -/
def damageFn (p : Nat × Nat) (h : HQ) : HQ :=
  if h.row = p.1 ∧ h.col = p.2 then { h with health := h.health - 1 } else h

/-- Decrement by one the health of the HQ at a position. -/
def damageAt (hqs : List HQ) (p : Nat × Nat) : List HQ :=
  hqs.map (damageFn p)

/-- Modelled from the spec: when a player is eliminated their remaining
cells lose their ownership and are left neutral (section 4.2 step 3). -/
def clearOwner (g : Grid) (q : Player) : Grid :=
  { g with cells := fun r c =>
      let cell := g.cells r c
      if cell.owner = some q then { cell with owner := none } else cell }

/-- Give one orb to a cell and capture it for the acting player
(section 4.2 step 3). -/
def bumpCell (g : Grid) (n : Nat × Nat) (actor : Player) : Grid :=
  setCell g n.1 n.2 ⟨some actor, (g.cells n.1 n.2).orbCount + 1⟩

/-- Modelled from the spec: the working state of one cascade resolution:
the evolving grid, HQ list, eliminated players, the ordered event log and
the number of explosions so far (sections 4.2 and 4.3). -/
structure ResolveState where
  grid : Grid
  hqs : List HQ
  eliminated : List Player
  events : List DamageEvent
  explosions : Nat

/-- Modelled from the spec: delivering one distributed orb to one neighbor
during an explosion (section 4.2 step 3).  A live enemy HQ absorbs the
orb as one point of damage instead of being captured (the damage-only
reading of the open question in section 9); at zero health it emits a
destroyed event, eliminates its owner and neutralizes that player's
cells; a destroyed HQ cell is inert (section 4.3); any other cell gains
the orb and is captured by the acting player. -/
def distribOne (actor : Player) (rs : ResolveState) (n : Nat × Nat) : ResolveState :=
  match hqAt rs.hqs n with
  | some h =>
    if h.health = 0 then rs
    else if h.owner ≠ actor then
      if h.health - 1 = 0 then
        { rs with
          hqs := damageAt rs.hqs n
          events := rs.events ++ [⟨n.1, n.2, .damage⟩, ⟨n.1, n.2, .destroyed⟩]
          eliminated := rs.eliminated ++ [h.owner]
          grid := clearOwner rs.grid h.owner }
      else
        { rs with
          hqs := damageAt rs.hqs n
          events := rs.events ++ [⟨n.1, n.2, .damage⟩] }
    else
      { rs with grid := bumpCell rs.grid n actor }
  | none => { rs with grid := bumpCell rs.grid n actor }

/-- Modelled from the spec: one explosion (section 4.2 step 3): the cell
is reset to zero orbs and left unowned, and one orb is distributed to
each in-bounds orthogonal neighbor. -/
def explodeCell (actor : Player) (rs : ResolveState) (p : Nat × Nat) : ResolveState :=
  let rs0 : ResolveState :=
    { rs with
      grid := setCell rs.grid p.1 p.2 ⟨none, 0⟩
      explosions := rs.explosions + 1 }
  (neighbors rs.grid.rows rs.grid.cols p.1 p.2).foldl (distribOne actor) rs0

/-- Modelled from the spec: append to the worklist, in order, the
neighbors that are now overflowing and not already queued (section 4.2
step 3: cells are processed in the order they became overflowing). -/
def enqueueNew (g : Grid) (q : List (Nat × Nat)) (ns : List (Nat × Nat)) :
    List (Nat × Nat) :=
  ns.foldl (fun acc n =>
    if overflowAt g n = true ∧ ¬ n ∈ acc then acc ++ [n] else acc) q

/-- Modelled from the spec: the first-in-first-out worklist loop of
section 4.2 step 3, bounded by fuel as demanded by section 4.2 step 4;
exceeding the bound fails with `engineInvariantViolation`. -/
def resolveLoop (actor : Player) :
    Nat → List (Nat × Nat) → ResolveState → Except MoveError ResolveState
  | _, [], rs => .ok rs
  | 0, _ :: _, _ => .error .engineInvariantViolation
  | fuel + 1, p :: rest, rs =>
    if overflowAt rs.grid p then
      let rs' := explodeCell actor rs p
      resolveLoop actor fuel
        (enqueueNew rs'.grid rest (neighbors rs.grid.rows rs.grid.cols p.1 p.2)) rs'
    else
      resolveLoop actor fuel rest rs

/-- The initial worklist: every in-bounds cell that currently overflows,
in row-major order. -/
def initQueue (g : Grid) : List (Nat × Nat) :=
  ((List.range g.rows).map (fun r =>
    (List.range g.cols).filterMap (fun c =>
      if overflowAt g (r, c) = true then some (r, c) else none))).flatten

/-- Modelled from the spec: the iteration bound of section 4.2 step 4,
derived from the total orb count and the board size. -/
def iterationBound (g : Grid) : Nat :=
  (totalOrbs g + 1) * (g.rows * g.cols + 1)

/-- Modelled from the spec: full cascade resolution of a grid (after the
placement has been applied): run the worklist to stability or fail with
`engineInvariantViolation` when the iteration bound is exceeded
(section 4.2 steps 3 and 4). -/
def resolveMove (actor : Player) (g : Grid) (hqs : List HQ)
    (elim : List Player) : Except MoveError ResolveState :=
  resolveLoop actor (iterationBound g) (initQueue g)
    ⟨g, hqs, elim, [], 0⟩

/-- Number of destroyed events recorded at a position. -/
def destroyedCount (events : List DamageEvent) (p : Nat × Nat) : Nat :=
  (events.filter (fun e =>
    decide (e.row = p.1 ∧ e.col = p.2 ∧ e.type = EventType.destroyed))).length

/-- Modelled from the spec: the turn and mode state machine of
section 4.4, as the tagged variant recommended in section 9.  The
transient `Resolving` state is not represented because resolution is
synchronous: no intent can observe it. -/
inductive Phase where
  | idle
  | heartSelection (pending : Player)
  | matchOver (winner : Player)
deriving Repr, DecidableEq

/-- Modelled from the spec: the match configuration supplied once at match
creation (section 6): dimensions, players, max HQ health, the heal
amount of the heart ability, the heart power-up layout and the HQ
positions. -/
structure MatchConfig where
  rows : Nat
  cols : Nat
  players : List Player
  maxHealth : Nat
  healAmount : Nat
  heartCells : List (Nat × Nat)
  hqPositions : List (Player × Nat × Nat)
deriving Repr, DecidableEq

/-- Modelled from the spec: the state owned by the engine facade for one
match instance (sections 3 and 4.5): grid, player roster, eliminations,
HQ cells, current player, machine phase, configuration values, which
players have placed at least one orb, the remaining heart power-up
cells, and the event log and explosion count of the latest resolution. -/
structure GameState where
  grid : Grid
  players : List Player
  eliminated : List Player
  hqs : List HQ
  current : Player
  phase : Phase
  maxHealth : Nat
  healAmount : Nat
  heartCells : List (Nat × Nat)
  moved : List Player
  lastEvents : List DamageEvent
  lastExplosions : Nat

/-- Modelled from the spec: `createGrid` initializes all cells unowned
with zero orbs (section 4.1). -/
def createGrid (rows cols : Nat) : Grid :=
  { rows := rows, cols := cols, cells := fun _ _ => ⟨none, 0⟩ }

/-- Modelled from the spec: match creation (sections 3 and 6): a fresh
grid, every HQ at full health, the first player to move, no
eliminations. -/
def initState (cfg : MatchConfig) : GameState :=
  { grid := createGrid cfg.rows cfg.cols
    players := cfg.players
    eliminated := []
    hqs := cfg.hqPositions.map (fun x => ⟨x.2.1, x.2.2, x.1, cfg.maxHealth⟩)
    current := cfg.players.headD 0
    phase := .idle
    maxHealth := cfg.maxHealth
    healAmount := cfg.healAmount
    heartCells := cfg.heartCells
    moved := []
    lastEvents := []
    lastExplosions := 0 }

/-- Modelled from the spec: the step 1 legality check of section 4.2: the
machine is idle, the acting player is not eliminated, it is their turn,
the target is on the board and is unowned or owned by them. -/
def moveLegal (s : GameState) (p : Player) (r c : Nat) : Bool :=
  decide (s.phase = Phase.idle ∧ ¬ p ∈ s.eliminated ∧ p = s.current ∧
    r < s.grid.rows ∧ c < s.grid.cols ∧
    ((s.grid.cells r c).owner = none ∨ (s.grid.cells r c).owner = some p))

/-- The players of the roster that are not eliminated, in roster order. -/
def aliveList (players elim : List Player) : List Player :=
  players.filter (fun q => decide (¬ q ∈ elim))

/-- A player owns no cell of the grid. -/
def ownsNone (g : Grid) (q : Player) : Bool :=
  (List.range g.rows).all (fun r =>
    (List.range g.cols).all (fun c => decide ((g.cells r c).owner ≠ some q)))

/-- Modelled from the spec: the next non-eliminated player in the fixed
cyclic order after `current` (sections 3 and 4.4). -/
def nextActive (players elim : List Player) (current : Player) : Player :=
  let i := players.indexOf current
  let rotated := players.drop (i + 1) ++ players.take (i + 1)
  (rotated.find? (fun q => decide (¬ q ∈ elim))).getD current

/-- Modelled from the spec: everything that happens after a successful
cascade resolution (sections 4.2 step 5 and 4.4): players who have moved
and own no cell are eliminated, then the machine either ends the match
when at most one player remains, enters heart selection when the
placement touched a heart power-up, or passes the turn to the next
non-eliminated player. -/
def finishMove (s : GameState) (p : Player) (r c : Nat) (rs : ResolveState) :
    GameState :=
  let moved1 := if p ∈ s.moved then s.moved else p :: s.moved
  let extraElim := s.players.filter (fun q =>
    decide (q ∈ moved1 ∧ ¬ q ∈ rs.eliminated ∧ ownsNone rs.grid q = true))
  let elim2 := rs.eliminated ++ extraElim
  let alive := aliveList s.players elim2
  let base : GameState :=
    { s with
      grid := rs.grid
      hqs := rs.hqs
      eliminated := elim2
      moved := moved1
      lastEvents := rs.events
      lastExplosions := rs.explosions }
  if alive.length ≤ 1 then
    { base with phase := .matchOver (alive.headD p) }
  else if (r, c) ∈ s.heartCells then
    { base with
      phase := .heartSelection p
      heartCells := s.heartCells.erase (r, c) }
  else
    { base with phase := .idle, current := nextActive s.players elim2 p }

/-- Modelled from the spec: the `attemptMove` entry point of the engine
facade (sections 4.2, 4.4 and 4.5): a placement intent is rejected with
`matchEnded` after the match is over and with `invalidMove` when the
step 1 legality check fails; otherwise the orb is placed, the cascade is
resolved and the turn machine advances. -/
def attemptMove (s : GameState) (p : Player) (r c : Nat) :
    Except MoveError GameState :=
  match s.phase with
  | .matchOver _ => .error .matchEnded
  | _ =>
    if moveLegal s p r c then
      match resolveMove p
          (setCell s.grid r c ⟨some p, (s.grid.cells r c).orbCount + 1⟩)
          s.hqs s.eliminated with
      | .error e => .error e
      | .ok rs => .ok (finishMove s p r c rs)
    else
      .error .invalidMove

/-- Modelled from the spec: the caller keeps its previous snapshot when
`attemptMove` fails (section 4.5: either the full cascade resolves and a
new consistent snapshot is produced, or nothing changes). -/
def moveStep (s : GameState) (p : Player) (r c : Nat) : GameState :=
  match attemptMove s p r c with
  | .ok s' => s'
  | .error _ => s

/-- Modelled from the spec: the `selectHeartTarget` entry point
(sections 4.3, 4.4 and 4.5): only valid in heart selection for the
pending player on a live HQ of theirs; it heals by the configured amount
capped at `maxHealth`, emits a heal event and returns to idle. -/
def selectHeartTarget (s : GameState) (p : Player) (r c : Nat) :
    Except MoveError GameState :=
  match s.phase with
  | .matchOver _ => .error .matchEnded
  | .idle => .error .invalidMove
  | .heartSelection pending =>
    if p = pending then
      match hqAt s.hqs (r, c) with
      | some h =>
        if h.owner = p ∧ 0 < h.health then
          .ok { s with
            hqs := s.hqs.map (fun hh =>
              if hh.row = r ∧ hh.col = c then
                { hh with health := min (hh.health + s.healAmount) s.maxHealth }
              else hh)
            phase := .idle
            current := nextActive s.players s.eliminated p
            lastEvents := [⟨r, c, .heal⟩]
            lastExplosions := 0 }
        else .error .invalidMove
      | none => .error .invalidMove
    else .error .invalidMove

/-- Modelled from the spec: the read-only `isValidMove(row, col)` query of
the rendering interface (section 6): it duplicates the step 1 legality
check for the current player without mutating state, returning the
answer together with the untouched state. -/
def isValidMoveQuery (s : GameState) (r c : Nat) : Bool × GameState :=
  (moveLegal s s.current r c, s)

-- Lemmas about the grid operations used during an explosion.

theorem clearOwner_rows (g : Grid) (q : Player) :
    (clearOwner g q).rows = g.rows := rfl

theorem clearOwner_cols (g : Grid) (q : Player) :
    (clearOwner g q).cols = g.cols := rfl

theorem orb_clearOwner (g : Grid) (q : Player) (r c : Nat) :
    ((clearOwner g q).cells r c).orbCount = (g.cells r c).orbCount := by
  simp only [clearOwner]
  split <;> rfl

theorem totalOrbs_clearOwner (g : Grid) (q : Player) :
    totalOrbs (clearOwner g q) = totalOrbs g :=
  totalOrbs_congr_orb g (clearOwner g q) rfl rfl (orb_clearOwner g q)

theorem bumpCell_rows (g : Grid) (n : Nat × Nat) (actor : Player) :
    (bumpCell g n actor).rows = g.rows := rfl

theorem bumpCell_cols (g : Grid) (n : Nat × Nat) (actor : Player) :
    (bumpCell g n actor).cols = g.cols := rfl

theorem orb_bumpCell_ne (g : Grid) (n : Nat × Nat) (actor : Player)
    {r' c' : Nat} (h : ¬(r' = n.1 ∧ c' = n.2)) :
    ((bumpCell g n actor).cells r' c').orbCount = (g.cells r' c').orbCount := by
  unfold bumpCell
  rw [cells_setCell_ne _ _ _ _ h]

theorem totalOrbs_bumpCell (g : Grid) (n : Nat × Nat) (actor : Player)
    (h1 : n.1 < g.rows) (h2 : n.2 < g.cols) :
    totalOrbs (bumpCell g n actor) = totalOrbs g + 1 := by
  have h := totalOrbs_setCell g n.1 n.2
    ⟨some actor, (g.cells n.1 n.2).orbCount + 1⟩ h1 h2
  simp only at h
  unfold bumpCell
  omega

-- How one distribution step can change the grid.

theorem distribOne_grid_cases (actor : Player) (rs : ResolveState) (n : Nat × Nat) :
    (distribOne actor rs n).grid = rs.grid ∨
    (∃ q, (distribOne actor rs n).grid = clearOwner rs.grid q) ∨
    (distribOne actor rs n).grid = bumpCell rs.grid n actor := by
  unfold distribOne
  cases hqAt rs.hqs n with
  | none => right; right; rfl
  | some h =>
    by_cases h0 : h.health = 0
    · left; simp [h0]
    · by_cases howner : h.owner ≠ actor
      · by_cases hdead : h.health - 1 = 0
        · right; left; exact ⟨h.owner, by simp [h0, howner, hdead]⟩
        · left; simp [h0, howner, hdead]
      · right; right; simp [h0, howner]

theorem distribOne_rows (actor : Player) (rs : ResolveState) (n : Nat × Nat) :
    (distribOne actor rs n).grid.rows = rs.grid.rows := by
  rcases distribOne_grid_cases actor rs n with h | ⟨q, h⟩ | h <;> rw [h] <;> rfl

theorem distribOne_cols (actor : Player) (rs : ResolveState) (n : Nat × Nat) :
    (distribOne actor rs n).grid.cols = rs.grid.cols := by
  rcases distribOne_grid_cases actor rs n with h | ⟨q, h⟩ | h <;> rw [h] <;> rfl

theorem orb_distribOne_ne (actor : Player) (rs : ResolveState) (n : Nat × Nat)
    {r' c' : Nat} (h : ¬(r' = n.1 ∧ c' = n.2)) :
    ((distribOne actor rs n).grid.cells r' c').orbCount
      = (rs.grid.cells r' c').orbCount := by
  rcases distribOne_grid_cases actor rs n with hg | ⟨q, hg⟩ | hg <;> rw [hg]
  · exact orb_clearOwner rs.grid q r' c'
  · exact orb_bumpCell_ne rs.grid n actor h

theorem totalOrbs_distribOne_le (actor : Player) (rs : ResolveState)
    (n : Nat × Nat) (h1 : n.1 < rs.grid.rows) (h2 : n.2 < rs.grid.cols) :
    totalOrbs (distribOne actor rs n).grid ≤ totalOrbs rs.grid + 1 := by
  rcases distribOne_grid_cases actor rs n with hg | ⟨q, hg⟩ | hg <;> rw [hg]
  · omega
  · rw [totalOrbs_clearOwner]; omega
  · rw [totalOrbs_bumpCell rs.grid n actor h1 h2]

-- Lifting the distribution-step lemmas over the neighbor fold.

theorem foldl_distrib_rows (actor : Player) (ns : List (Nat × Nat)) (rs : ResolveState) :
    (ns.foldl (distribOne actor) rs).grid.rows = rs.grid.rows := by
  induction ns generalizing rs with
  | nil => rfl
  | cons n t ih => rw [List.foldl_cons, ih, distribOne_rows]

theorem foldl_distrib_cols (actor : Player) (ns : List (Nat × Nat)) (rs : ResolveState) :
    (ns.foldl (distribOne actor) rs).grid.cols = rs.grid.cols := by
  induction ns generalizing rs with
  | nil => rfl
  | cons n t ih => rw [List.foldl_cons, ih, distribOne_cols]

theorem orb_foldl_distrib_notMem (actor : Player) (ns : List (Nat × Nat))
    (rs : ResolveState) {x : Nat × Nat} (hx : ¬ x ∈ ns) :
    ((ns.foldl (distribOne actor) rs).grid.cells x.1 x.2).orbCount
      = (rs.grid.cells x.1 x.2).orbCount := by
  induction ns generalizing rs with
  | nil => rfl
  | cons n t ih =>
    rw [List.foldl_cons,
      ih (distribOne actor rs n) (fun h => hx (List.mem_cons_of_mem n h))]
    refine orb_distribOne_ne actor rs n ?_
    intro hh
    exact hx (by
      have : x = n := Prod.ext hh.1 hh.2
      rw [this]; exact List.mem_cons_self n t)

theorem totalOrbs_foldl_distrib_le (actor : Player) (ns : List (Nat × Nat))
    (rs : ResolveState)
    (hns : ∀ n ∈ ns, n.1 < rs.grid.rows ∧ n.2 < rs.grid.cols) :
    totalOrbs (ns.foldl (distribOne actor) rs).grid
      ≤ totalOrbs rs.grid + ns.length := by
  induction ns generalizing rs with
  | nil => simp
  | cons n t ih =>
    rw [List.foldl_cons]
    have hn := hns n (List.mem_cons_self n t)
    have h1 := totalOrbs_distribOne_le actor rs n hn.1 hn.2
    have h2 := ih (distribOne actor rs n) (by
      intro m hm
      have := hns m (List.mem_cons_of_mem n hm)
      rw [distribOne_rows, distribOne_cols]
      exact this)
    simp only [List.length_cons]
    omega

-- Lemmas about one full explosion.

theorem explodeCell_rows (actor : Player) (rs : ResolveState) (p : Nat × Nat) :
    (explodeCell actor rs p).grid.rows = rs.grid.rows := by
  simp only [explodeCell]
  rw [foldl_distrib_rows]
  rfl

theorem explodeCell_cols (actor : Player) (rs : ResolveState) (p : Nat × Nat) :
    (explodeCell actor rs p).grid.cols = rs.grid.cols := by
  simp only [explodeCell]
  rw [foldl_distrib_cols]
  rfl

theorem orb_explodeCell_self (actor : Player) (rs : ResolveState) (p : Nat × Nat) :
    ((explodeCell actor rs p).grid.cells p.1 p.2).orbCount = 0 := by
  unfold explodeCell
  rw [orb_foldl_distrib_notMem actor _ _
    (self_not_mem_neighbors rs.grid.rows rs.grid.cols p.1 p.2)]
  simp only [cells_setCell_same]

theorem orb_explodeCell_other (actor : Player) (rs : ResolveState) (p : Nat × Nat)
    {x : Nat × Nat} (hxp : x ≠ p)
    (hxn : ¬ x ∈ neighbors rs.grid.rows rs.grid.cols p.1 p.2) :
    ((explodeCell actor rs p).grid.cells x.1 x.2).orbCount
      = (rs.grid.cells x.1 x.2).orbCount := by
  unfold explodeCell
  rw [orb_foldl_distrib_notMem actor _ _ hxn]
  rw [cells_setCell_ne]
  intro hh
  exact hxp (Prod.ext hh.1 hh.2)

theorem totalOrbs_explodeCell_le (actor : Player) (rs : ResolveState)
    (p : Nat × Nat) (hp1 : p.1 < rs.grid.rows) (hp2 : p.2 < rs.grid.cols)
    (hover : overflowAt rs.grid p = true) :
    totalOrbs (explodeCell actor rs p).grid ≤ totalOrbs rs.grid := by
  simp only [explodeCell]
  have hreset := totalOrbs_setCell rs.grid p.1 p.2 ⟨none, 0⟩ hp1 hp2
  simp only at hreset
  have hfold := totalOrbs_foldl_distrib_le actor
    (neighbors rs.grid.rows rs.grid.cols p.1 p.2)
    { rs with
      grid := setCell rs.grid p.1 p.2 ⟨none, 0⟩
      explosions := rs.explosions + 1 }
    (by
      intro n hn
      simp only [setCell_rows, setCell_cols]
      exact mem_neighbors_bounds hp1 hp2 n hn)
  have hlen := length_neighbors_le hp1 hp2
  have hov : capacity rs.grid.rows rs.grid.cols p.1 p.2
      < (rs.grid.cells p.1 p.2).orbCount := of_decide_eq_true hover
  simp only at hfold
  omega

-- Lemmas about the worklist.

theorem mem_enqueueNew_of_mem (g : Grid) (ns : List (Nat × Nat))
    (q : List (Nat × Nat)) {x : Nat × Nat} (hx : x ∈ q) :
    x ∈ enqueueNew g q ns := by
  induction ns generalizing q with
  | nil => exact hx
  | cons n t ih =>
    simp only [enqueueNew, List.foldl_cons]
    by_cases hcond : overflowAt g n = true ∧ ¬ n ∈ q
    · simp only [if_pos hcond]
      exact ih (q ++ [n]) (List.mem_append_left _ hx)
    · simp only [if_neg hcond]
      exact ih q hx

theorem mem_enqueueNew_of_overflow (g : Grid) (ns : List (Nat × Nat))
    (q : List (Nat × Nat)) {x : Nat × Nat} (hx : x ∈ ns)
    (hov : overflowAt g x = true) :
    x ∈ enqueueNew g q ns := by
  induction ns generalizing q with
  | nil => cases hx
  | cons n t ih =>
    simp only [enqueueNew, List.foldl_cons]
    rcases List.mem_cons.mp hx with hxe | hxt
    · subst hxe
      by_cases hcond : overflowAt g x = true ∧ ¬ x ∈ q
      · simp only [if_pos hcond]
        exact mem_enqueueNew_of_mem g t (q ++ [x])
          (List.mem_append_right _ (List.mem_singleton.mpr rfl))
      · simp only [if_neg hcond]
        have hq : x ∈ q := by
          by_cases hmem : x ∈ q
          · exact hmem
          · exact absurd ⟨hov, hmem⟩ hcond
        exact mem_enqueueNew_of_mem g t q hq
    · by_cases hcond : overflowAt g n = true ∧ ¬ n ∈ q
      · simp only [if_pos hcond]
        exact ih (q ++ [n]) hxt
      · simp only [if_neg hcond]
        exact ih q hxt

theorem mem_enqueueNew_elim (g : Grid) (ns : List (Nat × Nat))
    (q : List (Nat × Nat)) {x : Nat × Nat}
    (hx : x ∈ enqueueNew g q ns) : x ∈ q ∨ x ∈ ns := by
  induction ns generalizing q with
  | nil => exact Or.inl hx
  | cons n t ih =>
    simp only [enqueueNew, List.foldl_cons] at hx
    by_cases hcond : overflowAt g n = true ∧ ¬ n ∈ q
    · simp only [if_pos hcond] at hx
      rcases ih (q ++ [n]) hx with h | h
      · rcases List.mem_append.mp h with h2 | h2
        · exact Or.inl h2
        · exact Or.inr (List.mem_cons.mpr (Or.inl (List.mem_singleton.mp h2)))
      · exact Or.inr (List.mem_cons_of_mem n h)
    · simp only [if_neg hcond] at hx
      rcases ih q hx with h | h
      · exact Or.inl h
      · exact Or.inr (List.mem_cons_of_mem n h)

-- The worklist loop: positions in bounds, worklist completeness.

/-- Every queued position is on the board. -/
def QIn (g : Grid) (q : List (Nat × Nat)) : Prop :=
  ∀ x ∈ q, x.1 < g.rows ∧ x.2 < g.cols

/-- Every overflowing board cell is queued: the worklist of section 4.2
step 3 holds all cells whose orb count exceeds capacity. -/
def WInv (g : Grid) (q : List (Nat × Nat)) : Prop :=
  ∀ x : Nat × Nat, x.1 < g.rows → x.2 < g.cols →
    overflowAt g x = true → x ∈ q

theorem overflowAt_congr {g g' : Grid} (hrows : g'.rows = g.rows)
    (hcols : g'.cols = g.cols) {x : Nat × Nat}
    (horb : (g'.cells x.1 x.2).orbCount = (g.cells x.1 x.2).orbCount) :
    overflowAt g' x = overflowAt g x := by
  unfold overflowAt
  rw [hrows, hcols, horb]

theorem resolveLoop_error (actor : Player) :
    ∀ fuel q rs e, resolveLoop actor fuel q rs = .error e →
      e = MoveError.engineInvariantViolation := by
  intro fuel
  induction fuel with
  | zero =>
    intro q rs e h
    cases q with
    | nil => simp [resolveLoop] at h
    | cons p rest =>
      simp only [resolveLoop] at h
      cases h
      rfl
  | succ n ih =>
    intro q rs e h
    cases q with
    | nil => simp [resolveLoop] at h
    | cons p rest =>
      simp only [resolveLoop] at h
      by_cases hov : overflowAt rs.grid p = true
      · rw [if_pos hov] at h
        exact ih _ _ _ h
      · rw [if_neg hov] at h
        exact ih _ _ _ h

theorem not_overflow_le {g : Grid} {x : Nat × Nat}
    (h : ¬ overflowAt g x = true) :
    (g.cells x.1 x.2).orbCount ≤ capacity g.rows g.cols x.1 x.2 := by
  simp only [overflowAt, decide_eq_true_eq] at h
  omega

theorem resolveLoop_dims (actor : Player) :
    ∀ fuel q rs rs', resolveLoop actor fuel q rs = .ok rs' →
      rs'.grid.rows = rs.grid.rows ∧ rs'.grid.cols = rs.grid.cols := by
  intro fuel
  induction fuel with
  | zero =>
    intro q rs rs' h
    cases q with
    | nil =>
      simp only [resolveLoop] at h
      cases h
      exact ⟨rfl, rfl⟩
    | cons p rest => simp [resolveLoop] at h
  | succ n ih =>
    intro q rs rs' h
    cases q with
    | nil =>
      simp only [resolveLoop] at h
      cases h
      exact ⟨rfl, rfl⟩
    | cons p rest =>
      simp only [resolveLoop] at h
      by_cases hov : overflowAt rs.grid p = true
      · rw [if_pos hov] at h
        have h2 := ih _ _ _ h
        rw [explodeCell_rows, explodeCell_cols] at h2
        exact h2
      · rw [if_neg hov] at h
        exact ih _ _ _ h

theorem resolveLoop_stable (actor : Player) :
    ∀ fuel q rs rs', QIn rs.grid q → WInv rs.grid q →
      resolveLoop actor fuel q rs = .ok rs' → gridStable rs'.grid := by
  have base : ∀ (rs : ResolveState), WInv rs.grid [] → gridStable rs.grid := by
    intro rs hW r hr c hc
    by_cases hov : overflowAt rs.grid (r, c) = true
    · exact absurd (hW (r, c) hr hc hov) (List.not_mem_nil (r, c))
    · exact not_overflow_le hov
  intro fuel
  induction fuel with
  | zero =>
    intro q rs rs' hQ hW h
    cases q with
    | nil =>
      simp only [resolveLoop] at h
      cases h
      exact base rs hW
    | cons p rest => simp [resolveLoop] at h
  | succ n ih =>
    intro q rs rs' hQ hW h
    cases q with
    | nil =>
      simp only [resolveLoop] at h
      cases h
      exact base rs hW
    | cons p rest =>
      simp only [resolveLoop] at h
      by_cases hov : overflowAt rs.grid p = true
      · rw [if_pos hov] at h
        have hp := hQ p (List.mem_cons_self p rest)
        have hrows := explodeCell_rows actor rs p
        have hcols := explodeCell_cols actor rs p
        refine ih _ _ _ ?_ ?_ h
        · intro x hx
          rcases mem_enqueueNew_elim _ _ _ hx with hr | hn
          · have := hQ x (List.mem_cons_of_mem p hr)
            rw [hrows, hcols]
            exact this
          · have := mem_neighbors_bounds hp.1 hp.2 x hn
            rw [hrows, hcols]
            exact this
        · intro x hx1 hx2 hov2
          by_cases hxn : x ∈ neighbors rs.grid.rows rs.grid.cols p.1 p.2
          · exact mem_enqueueNew_of_overflow _ _ _ hxn hov2
          · by_cases hxp : x = p
            · subst hxp
              have hlt := of_decide_eq_true hov2
              rw [orb_explodeCell_self] at hlt
              exact absurd hlt (Nat.not_lt_zero _)
            · have horb := orb_explodeCell_other actor rs p hxp hxn
              have hcong := overflowAt_congr hrows hcols horb
              rw [hcong] at hov2
              have hmem := hW x (by rw [hrows] at hx1; exact hx1)
                (by rw [hcols] at hx2; exact hx2) hov2
              rcases List.mem_cons.mp hmem with he | ht
              · exact absurd he hxp
              · exact mem_enqueueNew_of_mem _ _ _ ht
      · rw [if_neg hov] at h
        refine ih _ _ _ ?_ ?_ h
        · intro x hx
          exact hQ x (List.mem_cons_of_mem p hx)
        · intro x hx1 hx2 hov2
          rcases List.mem_cons.mp (hW x hx1 hx2 hov2) with he | ht
          · subst he
            exact absurd hov2 hov
          · exact ht

theorem resolveLoop_total_le (actor : Player) :
    ∀ fuel q rs rs', QIn rs.grid q →
      resolveLoop actor fuel q rs = .ok rs' →
      totalOrbs rs'.grid ≤ totalOrbs rs.grid := by
  intro fuel
  induction fuel with
  | zero =>
    intro q rs rs' hQ h
    cases q with
    | nil =>
      simp only [resolveLoop] at h
      cases h
      exact Nat.le_refl _
    | cons p rest => simp [resolveLoop] at h
  | succ n ih =>
    intro q rs rs' hQ h
    cases q with
    | nil =>
      simp only [resolveLoop] at h
      cases h
      exact Nat.le_refl _
    | cons p rest =>
      simp only [resolveLoop] at h
      by_cases hov : overflowAt rs.grid p = true
      · rw [if_pos hov] at h
        have hp := hQ p (List.mem_cons_self p rest)
        have hstep := totalOrbs_explodeCell_le actor rs p hp.1 hp.2 hov
        have hrows := explodeCell_rows actor rs p
        have hcols := explodeCell_cols actor rs p
        have hrest := ih _ _ _ (by
          intro x hx
          rcases mem_enqueueNew_elim _ _ _ hx with hr | hn
          · have := hQ x (List.mem_cons_of_mem p hr)
            rw [hrows, hcols]
            exact this
          · have := mem_neighbors_bounds hp.1 hp.2 x hn
            rw [hrows, hcols]
            exact this) h
        omega
      · rw [if_neg hov] at h
        exact ih _ _ _ (fun x hx => hQ x (List.mem_cons_of_mem p hx)) h

theorem initQueue_QIn (g : Grid) : QIn g (initQueue g) := by
  intro x hx
  unfold initQueue at hx
  rcases List.mem_flatten.mp hx with ⟨s, hs, hxs⟩
  rcases List.mem_map.mp hs with ⟨r, hr, hseq⟩
  subst hseq
  rcases List.mem_filterMap.mp hxs with ⟨c, hc, hsome⟩
  by_cases hov : overflowAt g (r, c) = true
  · rw [if_pos hov] at hsome
    cases hsome
    exact ⟨List.mem_range.mp hr, List.mem_range.mp hc⟩
  · rw [if_neg hov] at hsome
    cases hsome

theorem initQueue_WInv (g : Grid) : WInv g (initQueue g) := by
  intro x hx1 hx2 hov
  unfold initQueue
  refine List.mem_flatten.mpr ⟨(List.range g.cols).filterMap (fun c =>
    if overflowAt g (x.1, c) = true then some (x.1, c) else none), ?_, ?_⟩
  · exact List.mem_map.mpr ⟨x.1, List.mem_range.mpr hx1, rfl⟩
  · refine List.mem_filterMap.mpr ⟨x.2, List.mem_range.mpr hx2, ?_⟩
    have hx : (x.1, x.2) = x := rfl
    rw [hx, if_pos hov]

theorem resolveMove_ok_stable {actor : Player} {g : Grid} {hqs : List HQ}
    {elim : List Player} {rs' : ResolveState}
    (h : resolveMove actor g hqs elim = .ok rs') : gridStable rs'.grid :=
  resolveLoop_stable actor _ _ _ _ (initQueue_QIn g) (initQueue_WInv g) h

theorem resolveMove_ok_total_le {actor : Player} {g : Grid} {hqs : List HQ}
    {elim : List Player} {rs' : ResolveState}
    (h : resolveMove actor g hqs elim = .ok rs') :
    totalOrbs rs'.grid ≤ totalOrbs g :=
  resolveLoop_total_le actor _ _ _ _ (initQueue_QIn g) h

theorem resolveMove_error {actor : Player} {g : Grid} {hqs : List HQ}
    {elim : List Player} {e : MoveError}
    (h : resolveMove actor g hqs elim = .error e) :
    e = MoveError.engineInvariantViolation :=
  resolveLoop_error actor _ _ _ _ h

-- The position, owner and identity of every HQ are fixed; only health
-- changes during resolution.

/-- The fixed part of an HQ record: position and owner. -/
def stripHQ (h : HQ) : Nat × Nat × Player := (h.row, h.col, h.owner)

/-- The board position of an HQ. -/
def hqPos (h : HQ) : Nat × Nat := (h.row, h.col)

theorem map_stripHQ_damageAt (hqs : List HQ) (n : Nat × Nat) :
    (damageAt hqs n).map stripHQ = hqs.map stripHQ := by
  unfold damageAt
  rw [List.map_map]
  refine List.map_congr_left ?_
  intro a _
  simp only [Function.comp_apply, damageFn]
  split <;> rfl

theorem health_damageAt_le (hqs : List HQ) (n : Nat × Nat) (M : Nat)
    (h : ∀ x ∈ hqs, x.health ≤ M) : ∀ x ∈ damageAt hqs n, x.health ≤ M := by
  intro x hx
  rcases List.mem_map.mp hx with ⟨a, ha, hfa⟩
  have haM := h a ha
  subst hfa
  unfold damageFn
  split
  · simp only
    omega
  · exact haM

theorem distribOne_hqs_cases (actor : Player) (rs : ResolveState) (n : Nat × Nat) :
    (distribOne actor rs n).hqs = rs.hqs ∨
    (distribOne actor rs n).hqs = damageAt rs.hqs n := by
  unfold distribOne
  cases hqAt rs.hqs n with
  | none => left; rfl
  | some h =>
    by_cases h0 : h.health = 0
    · left; simp [h0]
    · by_cases howner : h.owner ≠ actor
      · by_cases hdead : h.health - 1 = 0
        · right; simp [h0, howner, hdead]
        · right; simp [h0, howner, hdead]
      · left; simp [h0, howner]

theorem distribOne_strip (actor : Player) (rs : ResolveState) (n : Nat × Nat) :
    (distribOne actor rs n).hqs.map stripHQ = rs.hqs.map stripHQ := by
  rcases distribOne_hqs_cases actor rs n with h | h <;> rw [h]
  exact map_stripHQ_damageAt rs.hqs n

theorem distribOne_health_le (actor : Player) (rs : ResolveState) (n : Nat × Nat)
    (M : Nat) (h : ∀ x ∈ rs.hqs, x.health ≤ M) :
    ∀ x ∈ (distribOne actor rs n).hqs, x.health ≤ M := by
  rcases distribOne_hqs_cases actor rs n with hc | hc <;> rw [hc]
  · exact h
  · exact health_damageAt_le rs.hqs n M h

theorem foldl_distrib_strip (actor : Player) (ns : List (Nat × Nat))
    (rs : ResolveState) :
    (ns.foldl (distribOne actor) rs).hqs.map stripHQ = rs.hqs.map stripHQ := by
  induction ns generalizing rs with
  | nil => rfl
  | cons n t ih => rw [List.foldl_cons, ih, distribOne_strip]

theorem foldl_distrib_health (actor : Player) (ns : List (Nat × Nat))
    (rs : ResolveState) (M : Nat) (h : ∀ x ∈ rs.hqs, x.health ≤ M) :
    ∀ x ∈ (ns.foldl (distribOne actor) rs).hqs, x.health ≤ M := by
  induction ns generalizing rs with
  | nil => exact h
  | cons n t ih =>
    rw [List.foldl_cons]
    exact ih (distribOne actor rs n) (distribOne_health_le actor rs n M h)

theorem explodeCell_strip (actor : Player) (rs : ResolveState) (p : Nat × Nat) :
    (explodeCell actor rs p).hqs.map stripHQ = rs.hqs.map stripHQ := by
  simp only [explodeCell]
  rw [foldl_distrib_strip]

theorem explodeCell_health (actor : Player) (rs : ResolveState) (p : Nat × Nat)
    (M : Nat) (h : ∀ x ∈ rs.hqs, x.health ≤ M) :
    ∀ x ∈ (explodeCell actor rs p).hqs, x.health ≤ M := by
  simp only [explodeCell]
  exact foldl_distrib_health actor _ _ M h

theorem resolveLoop_strip (actor : Player) :
    ∀ fuel q rs rs', resolveLoop actor fuel q rs = .ok rs' →
      rs'.hqs.map stripHQ = rs.hqs.map stripHQ := by
  intro fuel
  induction fuel with
  | zero =>
    intro q rs rs' h
    cases q with
    | nil =>
      simp only [resolveLoop] at h
      cases h
      rfl
    | cons p rest => simp [resolveLoop] at h
  | succ n ih =>
    intro q rs rs' h
    cases q with
    | nil =>
      simp only [resolveLoop] at h
      cases h
      rfl
    | cons p rest =>
      simp only [resolveLoop] at h
      by_cases hov : overflowAt rs.grid p = true
      · rw [if_pos hov] at h
        rw [ih _ _ _ h, explodeCell_strip]
      · rw [if_neg hov] at h
        exact ih _ _ _ h

theorem resolveLoop_health (actor : Player) (M : Nat) :
    ∀ fuel q rs rs', resolveLoop actor fuel q rs = .ok rs' →
      (∀ x ∈ rs.hqs, x.health ≤ M) → ∀ x ∈ rs'.hqs, x.health ≤ M := by
  intro fuel
  induction fuel with
  | zero =>
    intro q rs rs' h hM
    cases q with
    | nil =>
      simp only [resolveLoop] at h
      cases h
      exact hM
    | cons p rest => simp [resolveLoop] at h
  | succ n ih =>
    intro q rs rs' h hM
    cases q with
    | nil =>
      simp only [resolveLoop] at h
      cases h
      exact hM
    | cons p rest =>
      simp only [resolveLoop] at h
      by_cases hov : overflowAt rs.grid p = true
      · rw [if_pos hov] at h
        exact ih _ _ _ h (explodeCell_health actor rs p M hM)
      · rw [if_neg hov] at h
        exact ih _ _ _ h hM

theorem resolveMove_strip {actor : Player} {g : Grid} {hqs : List HQ}
    {elim : List Player} {rs' : ResolveState}
    (h : resolveMove actor g hqs elim = .ok rs') :
    rs'.hqs.map stripHQ = hqs.map stripHQ :=
  resolveLoop_strip actor _ _ _ _ h

theorem resolveMove_health {actor : Player} {g : Grid} {hqs : List HQ}
    {elim : List Player} {rs' : ResolveState} {M : Nat}
    (h : resolveMove actor g hqs elim = .ok rs')
    (hM : ∀ x ∈ hqs, x.health ≤ M) : ∀ x ∈ rs'.hqs, x.health ≤ M :=
  resolveLoop_health actor M _ _ _ _ h hM

-- Counting destroyed events.

theorem destroyedCount_append (a b : List DamageEvent) (p : Nat × Nat) :
    destroyedCount (a ++ b) p = destroyedCount a p + destroyedCount b p := by
  unfold destroyedCount
  rw [List.filter_append, List.length_append]

theorem destroyedCount_damage (a b : Nat) (p : Nat × Nat) :
    destroyedCount [⟨a, b, EventType.damage⟩] p = 0 := by
  simp [destroyedCount, List.filter]

theorem destroyedCount_destroyed (a b : Nat) (p : Nat × Nat) :
    destroyedCount [⟨a, b, EventType.destroyed⟩] p
      = if a = p.1 ∧ b = p.2 then 1 else 0 := by
  by_cases h : a = p.1 ∧ b = p.2
  · simp [destroyedCount, List.filter, h]
  · simp [destroyedCount, List.filter, h]

-- Looking up an HQ after one point of damage.

theorem hqAt_damageAt (hqs : List HQ) (n p : Nat × Nat) :
    hqAt (damageAt hqs n) p = (hqAt hqs p).map (damageFn n) := by
  unfold hqAt damageAt
  rw [List.find?_map]
  have hpred : ((fun h : HQ => decide (h.row = p.1 ∧ h.col = p.2)) ∘ damageFn n)
      = (fun h : HQ => decide (h.row = p.1 ∧ h.col = p.2)) := by
    funext h
    simp only [Function.comp_apply, damageFn]
    split <;> rfl
  rw [hpred]

/-- The per-position bookkeeping invariant of one cascade resolution for
the HQ sitting at `pos`: its fixed part never changes, its health only
decreases, and a destroyed event and the elimination of its owner are
recorded exactly when its health has hit zero. -/
def PosBook (pos : Nat × Nat) (o : Player) (h₀ : Nat) (elim₀ : List Player)
    (rs : ResolveState) : Prop :=
  ∃ cur, hqAt rs.hqs pos = some ⟨pos.1, pos.2, o, cur⟩ ∧ cur ≤ h₀ ∧
    destroyedCount rs.events pos = (if 0 < h₀ ∧ cur = 0 then 1 else 0) ∧
    rs.eliminated.count o = elim₀.count o + (if 0 < h₀ ∧ cur = 0 then 1 else 0)

theorem map_hqPos_of_strip {l1 l2 : List HQ}
    (h : l1.map stripHQ = l2.map stripHQ) : l1.map hqPos = l2.map hqPos := by
  have e1 : l1.map hqPos = (l1.map stripHQ).map (fun t => (t.1, t.2.1)) := by
    rw [List.map_map]; rfl
  have e2 : l2.map hqPos = (l2.map stripHQ).map (fun t => (t.1, t.2.1)) := by
    rw [List.map_map]; rfl
  rw [e1, e2, h]

theorem map_owner_of_strip {l1 l2 : List HQ}
    (h : l1.map stripHQ = l2.map stripHQ) :
    l1.map HQ.owner = l2.map HQ.owner := by
  have e1 : l1.map HQ.owner = (l1.map stripHQ).map (fun t => t.2.2) := by
    rw [List.map_map]; rfl
  have e2 : l2.map HQ.owner = (l2.map stripHQ).map (fun t => t.2.2) := by
    rw [List.map_map]; rfl
  rw [e1, e2, h]

theorem destroyedCount_pair (a b : Nat) (p : Nat × Nat) :
    destroyedCount [⟨a, b, EventType.damage⟩, ⟨a, b, EventType.destroyed⟩] p
      = if a = p.1 ∧ b = p.2 then 1 else 0 := by
  by_cases h : a = p.1 ∧ b = p.2
  · simp [destroyedCount, List.filter, h]
  · simp [destroyedCount, List.filter, h]

theorem distribOne_book (actor : Player) (rs : ResolveState) (n : Nat × Nat)
    (pos : Nat × Nat) (o : Player) (h₀ : Nat) (elim₀ : List Player)
    (hownN : (rs.hqs.map HQ.owner).Nodup)
    (hb : PosBook pos o h₀ elim₀ rs) :
    PosBook pos o h₀ elim₀ (distribOne actor rs n) := by
  obtain ⟨cur, hfind, hle, hdc, hcount⟩ := hb
  rcases hq : hqAt rs.hqs n with _ | h
  · refine ⟨cur, ?_, hle, ?_, ?_⟩ <;> simp only [distribOne, hq] <;> assumption
  · simp only [distribOne, hq]
    by_cases h0 : h.health = 0
    · rw [if_pos h0]
      exact ⟨cur, hfind, hle, hdc, hcount⟩
    · rw [if_neg h0]
      by_cases howner : h.owner ≠ actor
      · rw [if_pos howner]
        by_cases hpn : pos = n
        · -- the damaged HQ is the tracked one
          have hq0 := hq
          rw [← hpn] at hq0
          rw [hfind] at hq0
          injection hq0 with hq2
          have hhealth : h.health = cur := by rw [← hq2]
          have howo : h.owner = o := by rw [← hq2]
          have hcurpos : 0 < cur := by
            rw [hhealth] at h0
            exact Nat.pos_of_ne_zero h0
          have hh₀ : 0 < h₀ := Nat.lt_of_lt_of_le hcurpos hle
          have hfn : damageFn n ⟨pos.1, pos.2, o, cur⟩
              = ⟨pos.1, pos.2, o, cur - 1⟩ := by
            simp [damageFn, ← hpn]
          have hfind2 : hqAt (damageAt rs.hqs n) pos
              = some ⟨pos.1, pos.2, o, cur - 1⟩ := by
            rw [hqAt_damageAt, hfind]
            show some (damageFn n ⟨pos.1, pos.2, o, cur⟩)
              = some ⟨pos.1, pos.2, o, cur - 1⟩
            rw [hfn]
          by_cases hdead : h.health - 1 = 0
          · rw [if_pos hdead]
            rw [hhealth] at hdead
            refine ⟨cur - 1, hfind2, by omega, ?_, ?_⟩
            · rw [destroyedCount_append, destroyedCount_pair]
              rw [if_pos ⟨(show pos.1 = n.1 by rw [hpn]).symm,
                (show pos.2 = n.2 by rw [hpn]).symm⟩]
              rw [hdc, if_neg (by omega), if_pos ⟨hh₀, hdead⟩]
            · rw [List.count_append, hcount, if_neg (by omega),
                if_pos ⟨hh₀, hdead⟩]
              rw [howo]
              simp
          · rw [if_neg hdead]
            rw [hhealth] at hdead
            refine ⟨cur - 1, hfind2, by omega, ?_, ?_⟩
            · rw [destroyedCount_append, destroyedCount_damage]
              rw [hdc, if_neg (by omega), if_neg (by omega)]
            · rw [hcount, if_neg (by omega), if_neg (by omega)]
        · -- the damaged HQ is a different one
          have hqf : rs.hqs.find?
              (fun x => decide (x.row = n.1 ∧ x.col = n.2)) = some h := hq
          have hps := List.find?_some hqf
          have hrowcol : h.row = n.1 ∧ h.col = n.2 := of_decide_eq_true hps
          have hmemh : h ∈ rs.hqs := List.mem_of_find?_eq_some hqf
          have hff : rs.hqs.find?
              (fun x => decide (x.row = pos.1 ∧ x.col = pos.2))
                = some ⟨pos.1, pos.2, o, cur⟩ := hfind
          have hmemhh : (⟨pos.1, pos.2, o, cur⟩ : HQ) ∈ rs.hqs :=
            List.mem_of_find?_eq_some hff
          have hne : h ≠ ⟨pos.1, pos.2, o, cur⟩ := by
            intro he
            apply hpn
            rw [Prod.ext_iff]
            rw [he] at hrowcol
            exact ⟨hrowcol.1, hrowcol.2⟩
          have howno : h.owner ≠ o := by
            intro he
            exact hne (List.inj_on_of_nodup_map hownN hmemh hmemhh he)
          have hnp12 : ¬(n.1 = pos.1 ∧ n.2 = pos.2) := by
            intro hcc
            exact hpn (Prod.ext_iff.mpr ⟨hcc.1.symm, hcc.2.symm⟩)
          have hfind2 : hqAt (damageAt rs.hqs n) pos
              = some ⟨pos.1, pos.2, o, cur⟩ := by
            rw [hqAt_damageAt, hfind]
            show some (damageFn n ⟨pos.1, pos.2, o, cur⟩)
              = some ⟨pos.1, pos.2, o, cur⟩
            rw [show damageFn n ⟨pos.1, pos.2, o, cur⟩
                = ⟨pos.1, pos.2, o, cur⟩ from by
              unfold damageFn
              rw [if_neg (by
                intro hcc
                exact hnp12 ⟨hcc.1.symm, hcc.2.symm⟩)]]
          have hcnt1 : ([h.owner] : List Player).count o = 0 := by
            simp [List.count_singleton, howno]
          by_cases hdead : h.health - 1 = 0
          · rw [if_pos hdead]
            refine ⟨cur, hfind2, hle, ?_, ?_⟩
            · rw [destroyedCount_append, destroyedCount_pair, if_neg hnp12, hdc]
              exact Nat.add_zero _
            · rw [List.count_append, hcnt1, hcount]
              exact Nat.add_zero _
          · rw [if_neg hdead]
            refine ⟨cur, hfind2, hle, ?_, ?_⟩
            · rw [destroyedCount_append, destroyedCount_damage, hdc]
              exact Nat.add_zero _
            · rw [hcount]
      · rw [if_neg howner]
        exact ⟨cur, hfind, hle, hdc, hcount⟩

theorem foldl_distrib_book (actor : Player) (ns : List (Nat × Nat))
    (rs : ResolveState) (pos : Nat × Nat) (o : Player) (h₀ : Nat)
    (elim₀ : List Player) (hownN : (rs.hqs.map HQ.owner).Nodup)
    (hb : PosBook pos o h₀ elim₀ rs) :
    PosBook pos o h₀ elim₀ (ns.foldl (distribOne actor) rs) := by
  induction ns generalizing rs with
  | nil => exact hb
  | cons n t ih =>
    rw [List.foldl_cons]
    refine ih (distribOne actor rs n) ?_
      (distribOne_book actor rs n pos o h₀ elim₀ hownN hb)
    rw [map_owner_of_strip (distribOne_strip actor rs n)]
    exact hownN

theorem explodeCell_book (actor : Player) (rs : ResolveState) (p : Nat × Nat)
    (pos : Nat × Nat) (o : Player) (h₀ : Nat) (elim₀ : List Player)
    (hownN : (rs.hqs.map HQ.owner).Nodup)
    (hb : PosBook pos o h₀ elim₀ rs) :
    PosBook pos o h₀ elim₀ (explodeCell actor rs p) := by
  simp only [explodeCell]
  exact foldl_distrib_book actor _ _ pos o h₀ elim₀ hownN hb

theorem resolveLoop_book (actor : Player) (pos : Nat × Nat) (o : Player)
    (h₀ : Nat) (elim₀ : List Player) :
    ∀ fuel q rs rs', (rs.hqs.map HQ.owner).Nodup →
      PosBook pos o h₀ elim₀ rs →
      resolveLoop actor fuel q rs = .ok rs' →
      PosBook pos o h₀ elim₀ rs' := by
  intro fuel
  induction fuel with
  | zero =>
    intro q rs rs' hN hb h
    cases q with
    | nil =>
      simp only [resolveLoop] at h
      cases h
      exact hb
    | cons p rest => simp [resolveLoop] at h
  | succ n ih =>
    intro q rs rs' hN hb h
    cases q with
    | nil =>
      simp only [resolveLoop] at h
      cases h
      exact hb
    | cons p rest =>
      simp only [resolveLoop] at h
      by_cases hov : overflowAt rs.grid p = true
      · rw [if_pos hov] at h
        refine ih _ _ _ ?_ ?_ h
        · rw [map_owner_of_strip (explodeCell_strip actor rs p)]
          exact hN
        · exact explodeCell_book actor rs p pos o h₀ elim₀ hN hb
      · rw [if_neg hov] at h
        exact ih _ _ _ hN hb h

theorem resolveMove_book {actor : Player} {g : Grid} {hqs : List HQ}
    {elim : List Player} {rs' : ResolveState} {pos : Nat × Nat}
    {o : Player} {h₀ : Nat}
    (hownN : (hqs.map HQ.owner).Nodup)
    (hfind : hqAt hqs pos = some ⟨pos.1, pos.2, o, h₀⟩)
    (h : resolveMove actor g hqs elim = .ok rs') :
    PosBook pos o h₀ elim rs' := by
  refine resolveLoop_book actor pos o h₀ elim _ _ _ _ hownN ?_ h
  refine ⟨h₀, hfind, Nat.le_refl h₀, ?_, ?_⟩
  · show destroyedCount [] pos = if 0 < h₀ ∧ h₀ = 0 then 1 else 0
    rw [if_neg (by omega)]
    rfl
  · show elim.count o = elim.count o + (if 0 < h₀ ∧ h₀ = 0 then 1 else 0)
    rw [if_neg (by omega)]
    exact (Nat.add_zero _).symm

-- The turn machine hands the turn only to living players.

theorem find?_getD_alive (l : List Player) (elim : List Player) (d : Player)
    (h : ∃ q ∈ l, ¬ q ∈ elim) :
    ((l.find? (fun q => decide (¬ q ∈ elim))).getD d) ∈ l ∧
    ¬ ((l.find? (fun q => decide (¬ q ∈ elim))).getD d) ∈ elim := by
  cases hfind : l.find? (fun q => decide (¬ q ∈ elim)) with
  | none =>
    obtain ⟨q, hq, hqe⟩ := h
    have hnone := List.find?_eq_none.mp hfind q hq
    exact absurd (decide_eq_true hqe) hnone
  | some a =>
    simp only [Option.getD_some]
    have hps := List.find?_some hfind
    exact ⟨List.mem_of_find?_eq_some hfind, of_decide_eq_true hps⟩

theorem nextActive_alive (players elim : List Player) (current : Player)
    (h : ∃ q ∈ players, ¬ q ∈ elim) :
    nextActive players elim current ∈ players ∧
    ¬ nextActive players elim current ∈ elim := by
  have hmem : ∀ x : Player,
      x ∈ players.drop (players.indexOf current + 1)
        ++ players.take (players.indexOf current + 1) ↔ x ∈ players := by
    intro x
    rw [List.mem_append, Or.comm, ← List.mem_append, List.take_append_drop]
  obtain ⟨q, hq, hqe⟩ := h
  have h3 := find?_getD_alive
    (players.drop (players.indexOf current + 1)
      ++ players.take (players.indexOf current + 1)) elim current
    ⟨q, (hmem q).mpr hq, hqe⟩
  exact ⟨(hmem _).mp h3.1, h3.2⟩

-- Configurations, reachable states and the engine state invariant.

/-- Modelled from the spec: a well-formed match configuration (sections 3
and 6): at least one player, no duplicate players, one HQ per player at
distinct positions. -/
def ValidConfig (cfg : MatchConfig) : Prop :=
  cfg.players ≠ [] ∧ cfg.players.Nodup ∧
  (cfg.hqPositions.map (fun x => x.1)).Nodup ∧
  (cfg.hqPositions.map (fun x => x.2)).Nodup

instance (cfg : MatchConfig) : Decidable (ValidConfig cfg) := by
  unfold ValidConfig
  infer_instance

/-- The states an engine facade can actually be in: an initial state of a
well-formed configuration, or the result of a successful `attemptMove` or
`selectHeartTarget` on a reachable state. -/
inductive Reachable : GameState → Prop where
  | init (cfg : MatchConfig) : ValidConfig cfg → Reachable (initState cfg)
  | move {s s' : GameState} {p : Player} {r c : Nat} :
      Reachable s → attemptMove s p r c = .ok s' → Reachable s'
  | heart {s s' : GameState} {p : Player} {r c : Nat} :
      Reachable s → selectHeartTarget s p r c = .ok s' → Reachable s'

/-- The between-cascades engine invariant: the grid is stable and every
HQ health is within the configured bound. -/
def StateInv (s : GameState) : Prop :=
  gridStable s.grid ∧ ∀ h ∈ s.hqs, h.health ≤ s.maxHealth

theorem initState_inv (cfg : MatchConfig) : StateInv (initState cfg) := by
  constructor
  · intro r _ c _
    exact Nat.zero_le _
  · intro h hh
    rcases List.mem_map.mp hh with ⟨x, _, hfx⟩
    rw [← hfx]
    exact Nat.le_refl _

theorem finishMove_grid (s : GameState) (p : Player) (r c : Nat)
    (rs : ResolveState) : (finishMove s p r c rs).grid = rs.grid := by
  simp only [finishMove]
  split_ifs <;> rfl

theorem finishMove_hqs (s : GameState) (p : Player) (r c : Nat)
    (rs : ResolveState) : (finishMove s p r c rs).hqs = rs.hqs := by
  simp only [finishMove]
  split_ifs <;> rfl

theorem finishMove_maxHealth (s : GameState) (p : Player) (r c : Nat)
    (rs : ResolveState) : (finishMove s p r c rs).maxHealth = s.maxHealth := by
  simp only [finishMove]
  split_ifs <;> rfl

theorem finishMove_players (s : GameState) (p : Player) (r c : Nat)
    (rs : ResolveState) : (finishMove s p r c rs).players = s.players := by
  simp only [finishMove]
  split_ifs <;> rfl

theorem attemptMove_ok_elim {s s' : GameState} {p : Player} {r c : Nat}
    (h : attemptMove s p r c = .ok s') :
    moveLegal s p r c = true ∧
    ∃ rs, resolveMove p
        (setCell s.grid r c ⟨some p, (s.grid.cells r c).orbCount + 1⟩)
        s.hqs s.eliminated = .ok rs ∧
      s' = finishMove s p r c rs := by
  unfold attemptMove at h
  split at h
  · cases h
  · split at h
    · rename_i hleg
      split at h
      · cases h
      · rename_i rs heq
        cases h
        exact ⟨hleg, rs, heq, rfl⟩
    · cases h

theorem attemptMove_inv {s s' : GameState} {p : Player} {r c : Nat}
    (h : attemptMove s p r c = .ok s') (hinv : StateInv s) : StateInv s' := by
  obtain ⟨-, rs, hres, hfin⟩ := attemptMove_ok_elim h
  subst hfin
  constructor
  · rw [finishMove_grid]
    exact resolveMove_ok_stable hres
  · rw [finishMove_hqs, finishMove_maxHealth]
    exact resolveMove_health hres hinv.2

theorem selectHeartTarget_inv {s s' : GameState} {p : Player} {r c : Nat}
    (h : selectHeartTarget s p r c = .ok s') (hinv : StateInv s) :
    StateInv s' := by
  unfold selectHeartTarget at h
  split at h
  · cases h
  · cases h
  · split at h
    · split at h
      · split at h
        · cases h
          constructor
          · exact hinv.1
          · intro x hx
            rcases List.mem_map.mp hx with ⟨a, ha, hfa⟩
            subst hfa
            split
            · simp only
              exact Nat.min_le_right _ _
            · exact hinv.2 a ha
        · cases h
      · cases h
    · cases h

theorem reachable_inv {s : GameState} (h : Reachable s) : StateInv s := by
  induction h with
  | init cfg _ => exact initState_inv cfg
  | move _ hstep ih => exact attemptMove_inv hstep ih
  | heart _ hstep ih => exact selectHeartTarget_inv hstep ih

theorem finishMove_branch (s : GameState) (p : Player) (r c : Nat)
    (rs : ResolveState) :
    ((aliveList s.players (finishMove s p r c rs).eliminated).length ≤ 1
      ∧ (finishMove s p r c rs).phase = .matchOver
          ((aliveList s.players (finishMove s p r c rs).eliminated).headD p))
    ∨ (¬ (aliveList s.players (finishMove s p r c rs).eliminated).length ≤ 1
      ∧ ((finishMove s p r c rs).phase = .heartSelection p
        ∨ ((finishMove s p r c rs).phase = .idle
          ∧ (finishMove s p r c rs).current
              = nextActive s.players (finishMove s p r c rs).eliminated p))) := by
  simp only [finishMove]
  split_ifs <;>
    first
      | exact Or.inl ⟨by assumption, rfl⟩
      | exact Or.inr ⟨by assumption, Or.inl rfl⟩
      | exact Or.inr ⟨by assumption, Or.inr ⟨rfl, rfl⟩⟩

theorem attemptMove_illegal {s : GameState} {p : Player} {r c : Nat}
    (hphase : ∀ w, ¬ s.phase = Phase.matchOver w)
    (hlegal : moveLegal s p r c = false) :
    attemptMove s p r c = .error .invalidMove := by
  unfold attemptMove
  cases hph : s.phase with
  | matchOver w => exact absurd hph (hphase w)
  | idle =>
    simp only [hlegal]
    rfl
  | heartSelection q =>
    simp only [hlegal]
    rfl

theorem attemptMove_matchOver {s : GameState} {p : Player} {r c : Nat}
    {w : Player} (hph : s.phase = Phase.matchOver w) :
    attemptMove s p r c = .error .matchEnded := by
  unfold attemptMove
  rw [hph]

/-!
The remaining definitions are translated from
src/client/src/components/Game/GameBoard.tsx, the one game component in
the repository.
-/

/-- A power-up entry as the `powerUps` prop delivers it (GameBoard.tsx
lines 16 and 92 to 96). -/
structure PowerUpCell where
  row : Nat
  col : Nat
  type : String
deriving Repr, DecidableEq

/-- An HQ entry as the `hqs` prop delivers it (GameBoard.tsx lines 17 and
98 to 102). -/
structure HQView where
  row : Nat
  col : Nat
  health : Nat
deriving Repr, DecidableEq

/-- The `lastHQDamaged` store value read by the board (GameBoard.tsx
lines 38 and 159 to 165). -/
structure HQEvent where
  row : Nat
  col : Nat
  type : String
  timestamp : Nat
deriving Repr, DecidableEq

/-- GameBoard.tsx lines 92 to 96: the power-up type at a cell, when one
sits there. -/
def getPowerUpType (powerUps : List PowerUpCell) (row col : Nat) :
    Option String :=
  (powerUps.find? (fun u => decide (u.row = row ∧ u.col = col))).map
    (fun u => u.type)

/-- GameBoard.tsx lines 98 to 102: whether a cell is an HQ, and its
health when it is. -/
def getHQInfo (hqs : List HQView) (row col : Nat) : Bool × Option Nat :=
  match hqs.find? (fun h => decide (h.row = row ∧ h.col = col)) with
  | some hq => (true, some hq.health)
  | none => (false, none)

/-- The props GameBoard passes to each BoardCell (GameBoard.tsx lines 177
to 195). -/
structure BoardCellProps where
  row : Nat
  col : Nat
  cell : Cell
  totalRows : Nat
  totalCols : Nat
  isValidMove : Bool
  powerUpType : Option String
  isHQ : Bool
  hqHealth : Option Nat
  maxHqHealth : Nat
  isHQDamaged : Bool
  isHQHealed : Bool
  isHQDestroyed : Bool
  heartSelectionMode : Bool
  pendingHeartPlayer : Option Player

/-- GameBoard.tsx lines 154 to 195: the per-cell rendering computation:
power-up lookup, HQ lookup, the last-HQ-event comparison, and the literal
prop list handed to BoardCell, with `maxHqHealth` written as the constant
5 on line 189. -/
def mkBoardCellProps (hqs : List HQView) (powerUps : List PowerUpCell)
    (lastHQDamaged : Option HQEvent) (heartSelectionMode : Bool)
    (pendingHeartPlayer : Option Player) (isValidMove : Nat → Nat → Bool)
    (rows cols rowIndex colIndex : Nat) (cell : Cell) : BoardCellProps :=
  let powerUpType := getPowerUpType powerUps rowIndex colIndex
  let info := getHQInfo hqs rowIndex colIndex
  let effected : Bool :=
    match lastHQDamaged with
    | some ev => info.1 && decide (ev.row = rowIndex) && decide (ev.col = colIndex)
    | none => false
  let effectType : Option String :=
    if effected then lastHQDamaged.map (fun e => e.type) else none
  { row := rowIndex
    col := colIndex
    cell := cell
    totalRows := rows
    totalCols := cols
    isValidMove := isValidMove rowIndex colIndex
    powerUpType := powerUpType
    isHQ := info.1
    hqHealth := info.2
    maxHqHealth := 5
    isHQDamaged := effected && (effectType == some "damage")
    isHQHealed := effected && (effectType == some "heal")
    isHQDestroyed := effected && (effectType == some "destroyed")
    heartSelectionMode := heartSelectionMode
    pendingHeartPlayer := pendingHeartPlayer }

/-- What the deferred callback handed to setTimeout does (GameBoard.tsx
lines 85 to 89). -/
inductive TimerAction where
  | logMessage
  | setIsAnimatingTo (v : Bool)
deriving Repr, DecidableEq

/-- The observable effects handleCellClick can issue, in order
(GameBoard.tsx lines 69 to 90).  Console message text is not modelled. -/
inductive UIEffect where
  | playHit
  | setLastClickedCell (row col : Nat)
  | setIsAnimating (v : Bool)
  | logMessage
  | cellClick (row col : Nat)
  | setTimeout (delayMs : Nat) (callback : List TimerAction)
deriving Repr, DecidableEq

/-- GameBoard.tsx lines 69 to 90: the click handler: play the hit sound,
record the clicked cell, raise the animation flag, log, forward the click
to `onCellClick`, and schedule a 200 ms timeout that logs and lowers the
animation flag.  The `isValidMove` prop is received but never consulted
here. -/
def handleCellClick (isValidMove : Nat → Nat → Bool) (row col : Nat) :
    List UIEffect :=
  [UIEffect.playHit,
   UIEffect.setLastClickedCell row col,
   UIEffect.setIsAnimating true,
   UIEffect.logMessage,
   UIEffect.cellClick row col,
   UIEffect.setTimeout 200 [TimerAction.logMessage,
     TimerAction.setIsAnimatingTo false]]

-- Concrete boards and states used by the claim instances below.

/-- Short test for ok results of the facade. -/
def isOkE {α : Type} : Except MoveError α → Bool
  | .ok _ => true
  | .error _ => false

/-- A stable 3x3 board: corner (0,0) at 1 of 1, edges (0,1) and (1,0) at
2 of 2, center (1,1) at 3 of 3, everything owned by player 0. -/
def c1Grid : Grid :=
  { rows := 3, cols := 3, cells := fun r c =>
      if r = 0 ∧ c = 0 then ⟨some 0, 1⟩
      else if r = 0 ∧ c = 1 then ⟨some 0, 2⟩
      else if r = 1 ∧ c = 0 then ⟨some 0, 2⟩
      else if r = 1 ∧ c = 1 then ⟨some 0, 3⟩
      else ⟨none, 0⟩ }

/-- The engine state around `c1Grid`: two players, player 0 to move. -/
def c1State : GameState :=
  { grid := c1Grid, players := [0, 1], eliminated := [], hqs := [],
    current := 0, phase := .idle, maxHealth := 5, healAmount := 1,
    heartCells := [], moved := [], lastEvents := [], lastExplosions := 0 }

/-- A minimal 1x1 match state with an empty board, player 0 to move. -/
def w1 : GameState :=
  { grid := createGrid 1 1, players := [0, 1], eliminated := [], hqs := [],
    current := 0, phase := .idle, maxHealth := 5, healAmount := 1,
    heartCells := [], moved := [], lastEvents := [], lastExplosions := 0 }

/-- A small two-player configuration with one HQ per player. -/
def cfg0 : MatchConfig :=
  { rows := 3, cols := 3, players := [0, 1], maxHealth := 5, healAmount := 1,
    heartCells := [], hqPositions := [(0, 2, 0), (1, 2, 2)] }

/-- 3x3 board where player 0 holds the corner (0,0) at capacity. -/
def w56Grid : Grid :=
  { rows := 3, cols := 3, cells := fun r c =>
      if r = 0 ∧ c = 0 then ⟨some 0, 1⟩
      else ⟨none, 0⟩ }

/-- Player 1 HQ at (0,1) down to 1 health, player 0 HQ at (2,2). -/
def w56hqs : List HQ := [⟨0, 1, 1, 1⟩, ⟨2, 2, 0, 5⟩]

/-- `w56Grid` after player 0 places a second orb on the corner. -/
def w56g1 : Grid := setCell w56Grid 0 0 ⟨some 0, 2⟩

/-- The full engine state around `w56Grid`, player 0 to move: the next
placement on (0,0) explodes into the damaged HQ of player 1. -/
def w56 : GameState :=
  { grid := w56Grid, players := [0, 1], eliminated := [], hqs := w56hqs,
    current := 0, phase := .idle, maxHealth := 5, healAmount := 1,
    heartCells := [], moved := [0], lastEvents := [], lastExplosions := 0 }

/-- A finished match: the machine sits in the terminal matchOver state. -/
def overState : GameState :=
  { grid := createGrid 2 2, players := [0, 1], eliminated := [1], hqs := [],
    current := 0, phase := .matchOver 0, maxHealth := 5, healAmount := 1,
    heartCells := [], moved := [0], lastEvents := [], lastExplosions := 0 }

/-- An idle state where it is the turn of player 0. -/
def w3 : GameState :=
  { grid := createGrid 2 2, players := [0, 1], eliminated := [], hqs := [],
    current := 0, phase := .idle, maxHealth := 5, healAmount := 1,
    heartCells := [], moved := [], lastEvents := [], lastExplosions := 0 }

/-- The 5x5 two-player configuration of the corner scenario. -/
def cfg7 : MatchConfig :=
  { rows := 5, cols := 5, players := [0, 1], maxHealth := 5, healAmount := 1,
    heartCells := [], hqPositions := [(0, 2, 0), (1, 2, 4)] }

/-- Match start of the corner scenario. -/
def c7s0 : GameState := initState cfg7

/-- Player 0 places on the corner (0,0). -/
def c7m1 : Except MoveError GameState := attemptMove c7s0 0 0 0

/-- Player 1 answers far away on (4,4). -/
def c7m2 : Except MoveError GameState :=
  c7m1.bind (fun s => attemptMove s 1 4 4)

/-- Player 0 places on the corner (0,0) again: the corner now exceeds its
capacity of 1 and explodes. -/
def c7m3 : Except MoveError GameState :=
  c7m2.bind (fun s => attemptMove s 0 0 0)

/-- C1 counterexample: from the stable board `c1Grid`, the legal single
placement of player 0 on the center yields a cascade in which the corner
(0,0) is popped holding 3 orbs (capacity 1) and resets to 0 while handing
out only 2: the final total is 8, not the 9 the claim demands.  No
power-up and no HQ is involved. -/
theorem C1_counterexample :
    gridStable c1State.grid ∧ moveLegal c1State 0 1 1 = true ∧
    totalOrbs c1State.grid = 8 ∧
    (attemptMove c1State 0 1 1).map (fun s => totalOrbs s.grid) = .ok 8 ∧
    ¬ (attemptMove c1State 0 1 1).map (fun s => totalOrbs s.grid)
        = .ok (totalOrbs c1State.grid + 1) := by
  decide

/-- C1 (amended): across one full placement and cascade resolution the
total orb count never increases: it is at most the total before plus the
one placed orb.  It can strictly decrease, because an explosion resets
its cell to 0 orbs while handing out only one orb per in-bounds neighbor,
so any orbs beyond capacity plus one are destroyed (and a live enemy HQ
absorbs a distributed orb as damage). -/
theorem C1_amended :
    ∀ (s : GameState) (p : Player) (r c : Nat) (s' : GameState),
    attemptMove s p r c = .ok s' →
    totalOrbs s'.grid ≤ totalOrbs s.grid + 1 := by
  intro s p r c s' h
  obtain ⟨hleg, rs, hres, hfin⟩ := attemptMove_ok_elim h
  subst hfin
  rw [finishMove_grid]
  have hle := resolveMove_ok_total_le hres
  have hlegp := of_decide_eq_true hleg
  obtain ⟨-, -, -, hr, hc, -⟩ := hlegp
  have hset := totalOrbs_setCell s.grid r c
    ⟨some p, (s.grid.cells r c).orbCount + 1⟩ hr hc
  simp only at hset
  omega

/-- C1 amended witness: a concrete successful move obeying the bound. -/
theorem C1_amended_witness :
    ∃ s', attemptMove w1 0 0 0 = .ok s'
      ∧ totalOrbs s'.grid ≤ totalOrbs w1.grid + 1 := by
  cases h : attemptMove w1 0 0 0 with
  | ok s' => exact ⟨s', rfl, C1_amended w1 0 0 0 s' h⟩
  | error e =>
    have hok : isOkE (attemptMove w1 0 0 0) = true := by decide
    rw [h] at hok
    simp [isOkE] at hok

/-- C2: every reachable engine state, that is every state between
resolved cascades, has a stable grid: each cell holds at most its
capacity.  During resolution a cell may transiently exceed capacity,
which is exactly the condition on which the worklist loop explodes it. -/
theorem C2_claim : ∀ s : GameState, Reachable s → gridStable s.grid :=
  fun _ h => (reachable_inv h).1

/-- C2 witness: the initial state of a concrete configuration is
reachable and stable. -/
theorem C2_witness :
    Reachable (initState cfg0) ∧ gridStable (initState cfg0).grid :=
  ⟨Reachable.init cfg0 (by decide),
    C2_claim _ (Reachable.init cfg0 (by decide))⟩

/-- C4: cascade resolution always terminates (resolveMove is a total
function of fuel given by the iteration bound): it either reaches a
stable grid, or exhausts the bound and fails with
engineInvariantViolation instead of looping forever. -/
theorem C4_claim :
    ∀ (actor : Player) (g : Grid) (hqs : List HQ) (elim : List Player),
    (∃ rs, resolveMove actor g hqs elim = .ok rs ∧ gridStable rs.grid)
    ∨ resolveMove actor g hqs elim = .error .engineInvariantViolation := by
  intro actor g hqs elim
  cases hres : resolveMove actor g hqs elim with
  | ok rs => exact Or.inl ⟨rs, rfl, resolveMove_ok_stable hres⟩
  | error e =>
    right
    rw [resolveMove_error hres]

/-- C3: every invalid placement intent, namely a target cell owned by
another player, an eliminated acting player, a player acting out of turn,
or a pending heart selection, is rejected with invalidMove and leaves the
callers snapshot unchanged: the facade keeps the previous state on
error. -/
theorem C3_claim : ∀ (s : GameState) (p : Player) (r c q2 : Nat),
    (s.phase = Phase.heartSelection q2
      ∨ (s.phase = Phase.idle
        ∧ (p ∈ s.eliminated ∨ ¬ p = s.current
          ∨ (¬ (s.grid.cells r c).owner = none
            ∧ ¬ (s.grid.cells r c).owner = some p)))) →
    attemptMove s p r c = .error .invalidMove ∧ moveStep s p r c = s := by
  intro s p r c q2 hbad
  have hlegal : moveLegal s p r c = false := by
    unfold moveLegal
    rw [decide_eq_false_iff_not]
    rintro ⟨hidle, hnelim, hcur, hr, hc, howner⟩
    rcases hbad with hheart | ⟨hidle2, hrest⟩
    · rw [hheart] at hidle
      exact Phase.noConfusion hidle
    · rcases hrest with he | hc2 | ⟨ho1, ho2⟩
      · exact hnelim he
      · exact hc2 hcur
      · rcases howner with h | h
        · exact ho1 h
        · exact ho2 h
  have herr : attemptMove s p r c = .error .invalidMove := by
    refine attemptMove_illegal ?_ hlegal
    intro w hw
    rcases hbad with hheart | ⟨hidle2, -⟩
    · rw [hheart] at hw
      exact Phase.noConfusion hw
    · rw [hidle2] at hw
      exact Phase.noConfusion hw
  refine ⟨herr, ?_⟩
  unfold moveStep
  rw [herr]

/-- C3 witness: player 1 tries to move during the turn of player 0: the
intent is rejected and the state is unchanged. -/
theorem C3_witness :
    attemptMove w3 1 0 0 = .error .invalidMove ∧ moveStep w3 1 0 0 = w3 :=
  C3_claim w3 1 0 0 0 (Or.inr ⟨rfl, Or.inr (Or.inl (by decide))⟩)

/-- C5: on every reachable state every HQ health lies within 0 and
maxHealth (the lower bound is inherent in the natural-number health); and
whenever the health of the HQ at a position falls from positive to zero
during one cascade resolution, the event log of that resolution carries
exactly one destroyed event at that position and exactly one elimination
of that HQ owner is appended. -/
theorem C5_claim :
    (∀ s : GameState, Reachable s → ∀ h ∈ s.hqs, h.health ≤ s.maxHealth)
    ∧ (∀ (actor : Player) (g : Grid) (hqs : List HQ) (elim : List Player)
        (rs : ResolveState) (pos : Nat × Nat) (o : Player) (h₀ : Nat),
      (hqs.map HQ.owner).Nodup →
      hqAt hqs pos = some ⟨pos.1, pos.2, o, h₀⟩ →
      resolveMove actor g hqs elim = .ok rs →
      0 < h₀ → healthAt rs.hqs pos = 0 →
      destroyedCount rs.events pos = 1
        ∧ rs.eliminated.count o = elim.count o + 1) := by
  constructor
  · exact fun _ h => (reachable_inv h).2
  · intro actor g hqs elim rs pos o h₀ hN hfind hok hpos hzero
    obtain ⟨cur, hfind2, hle, hdc, hcount⟩ := resolveMove_book hN hfind hok
    have hcur : cur = 0 := by
      unfold healthAt at hzero
      rw [hfind2] at hzero
      exact hzero
    subst hcur
    rw [if_pos ⟨hpos, rfl⟩] at hdc
    rw [if_pos ⟨hpos, rfl⟩] at hcount
    exact ⟨hdc, hcount⟩

/-- C5 witness: the initial state of a concrete configuration obeys the
health bounds, and the corner explosion of the w56 scenario destroys the
HQ of player 1 with exactly one destroyed event and one elimination. -/
theorem C5_witness :
    (Reachable (initState cfg0)
      ∧ ∀ h ∈ (initState cfg0).hqs, h.health ≤ (initState cfg0).maxHealth)
    ∧ ∃ rs, resolveMove 0 w56g1 w56hqs [] = .ok rs
        ∧ destroyedCount rs.events (0, 1) = 1
        ∧ rs.eliminated.count 1 = 1 := by
  constructor
  · exact ⟨Reachable.init cfg0 (by decide),
      C5_claim.1 _ (Reachable.init cfg0 (by decide))⟩
  · cases h : resolveMove 0 w56g1 w56hqs [] with
    | ok rs =>
      have hh : (resolveMove 0 w56g1 w56hqs []).map
          (fun r2 => healthAt r2.hqs (0, 1)) = .ok 0 := by decide
      rw [h] at hh
      simp only [Except.map] at hh
      injection hh with hh2
      have hmain := C5_claim.2 0 w56g1 w56hqs [] rs (0, 1) 1 1
        (by decide) (by decide) h (by decide) hh2
      exact ⟨rs, rfl, hmain.1, by simpa using hmain.2⟩
    | error e =>
      have hok : isOkE (resolveMove 0 w56g1 w56hqs []) = true := by decide
      rw [h] at hok
      simp [isOkE] at hok

/-- C6: after the match is over every placement intent is rejected with
matchEnded; every successful move that leaves exactly one player
non-eliminated puts the machine in the terminal matchOver state naming
that player; and when a successful move returns to idle, the player
handed the turn is a non-eliminated member of the roster, the turn
cycling only over living players. -/
theorem C6_claim :
    (∀ (s : GameState) (p : Player) (r c : Nat) (w : Player),
      s.phase = Phase.matchOver w →
      attemptMove s p r c = .error .matchEnded)
    ∧ (∀ (s s' : GameState) (p : Player) (r c : Nat),
      attemptMove s p r c = .ok s' →
      ((aliveList s'.players s'.eliminated).length = 1 →
        s'.phase = Phase.matchOver
          ((aliveList s'.players s'.eliminated).headD p))
      ∧ (s'.phase = Phase.idle →
        s'.current ∈ s'.players ∧ ¬ s'.current ∈ s'.eliminated)) := by
  constructor
  · intro s p r c w hph
    exact attemptMove_matchOver hph
  · intro s s' p r c h
    obtain ⟨-, rs, hres, hfin⟩ := attemptMove_ok_elim h
    subst hfin
    rw [finishMove_players]
    rcases finishMove_branch s p r c rs with ⟨hlen, hph⟩ | ⟨hlen, hrest⟩
    · refine ⟨fun _ => hph, ?_⟩
      intro hidle
      rw [hph] at hidle
      exact Phase.noConfusion hidle
    · constructor
      · intro hlen1
        omega
      · intro hidle
        rcases hrest with hph | ⟨hph, hcur⟩
        · rw [hph] at hidle
          exact Phase.noConfusion hidle
        · have hex : ∃ q ∈ s.players,
              ¬ q ∈ (finishMove s p r c rs).eliminated := by
            by_contra hno
            push_neg at hno
            have hnil : aliveList s.players
                (finishMove s p r c rs).eliminated = [] := by
              unfold aliveList
              rw [List.filter_eq_nil_iff]
              intro a ha
              simp [hno a ha]
            rw [hnil] at hlen
            simp at hlen
          have hspec := nextActive_alive s.players
            (finishMove s p r c rs).eliminated p hex
          rw [hcur]
          exact ⟨hspec.1, hspec.2⟩

/-- C6 witness: a matchOver state rejects a move with matchEnded; the w56
corner explosion eliminates player 1 and ends the match with winner 0;
and a first move in a fresh two-player match hands the turn to the living
player 1. -/
theorem C6_witness :
    attemptMove overState 0 0 0 = .error .matchEnded
    ∧ (∃ s', attemptMove w56 0 0 0 = .ok s'
        ∧ s'.phase = Phase.matchOver 0)
    ∧ (∃ s', attemptMove w3 0 0 0 = .ok s'
        ∧ s'.phase = Phase.idle
        ∧ s'.current ∈ s'.players ∧ ¬ s'.current ∈ s'.eliminated) := by
  refine ⟨C6_claim.1 overState 0 0 0 0 rfl, ?_, ?_⟩
  · cases h : attemptMove w56 0 0 0 with
    | ok s' =>
      have hl : (attemptMove w56 0 0 0).map
          (fun t => (aliveList t.players t.eliminated).length) = .ok 1 := by
        decide
      have hhead : (attemptMove w56 0 0 0).map
          (fun t => (aliveList t.players t.eliminated).headD 0) = .ok 0 := by
        decide
      rw [h] at hl hhead
      simp only [Except.map] at hl hhead
      injection hl with hl2
      injection hhead with hhead2
      have hmain := (C6_claim.2 w56 s' 0 0 0 h).1 hl2
      rw [hhead2] at hmain
      exact ⟨s', rfl, hmain⟩
    | error e =>
      have hok : isOkE (attemptMove w56 0 0 0) = true := by decide
      rw [h] at hok
      simp [isOkE] at hok
  · cases h : attemptMove w3 0 0 0 with
    | ok s' =>
      have hp : (attemptMove w3 0 0 0).map (fun t => t.phase)
          = .ok Phase.idle := by decide
      rw [h] at hp
      simp only [Except.map] at hp
      injection hp with hp2
      have hmain := (C6_claim.2 w3 s' 0 0 0 h).2 hp2
      exact ⟨s', rfl, hp2, hmain.1, hmain.2⟩
    | error e =>
      have hok : isOkE (attemptMove w3 0 0 0) = true := by decide
      rw [h] at hok
      simp [isOkE] at hok

/-- C7: on a 5x5 board with two players, the corner (0,0) has capacity 1;
after player 0 places there, player 1 answers elsewhere and player 0
places there again, the second corner placement raises the corner to 2
orbs, which triggers exactly one explosion that leaves the corner at 0
orbs and gives exactly 1 orb to each of the 2 in-bounds orthogonal
neighbors (0,1) and (1,0), both captured by player 0. -/
theorem C7_claim :
    capacity 5 5 0 0 = 1
    ∧ c7m2.map (fun s => (s.grid.cells 0 0).orbCount) = .ok 1
    ∧ c7m3.map (fun s =>
        ((s.grid.cells 0 0).orbCount, (s.grid.cells 0 1).orbCount,
         (s.grid.cells 1 0).orbCount, s.lastExplosions)) = .ok (0, 1, 1, 1)
    ∧ c7m3.map (fun s =>
        ((s.grid.cells 0 0).owner, (s.grid.cells 0 1).owner,
         (s.grid.cells 1 0).owner)) = .ok (none, some 0, some 0) := by
  decide

/-- C8: the read-only isValidMove query returns the state untouched, and
asking again on the returned state gives the same answer and the same
state: snapshots before and after any number of calls are equal. -/
theorem C8_claim : ∀ (s : GameState) (r c : Nat),
    (isValidMoveQuery s r c).2 = s
    ∧ isValidMoveQuery (isValidMoveQuery s r c).2 r c
        = isValidMoveQuery s r c :=
  fun _ _ _ => ⟨rfl, rfl⟩

/-- C9: for every cell the board renders and every input the component
receives, the maxHqHealth prop handed to BoardCell is the constant 5
written on GameBoard.tsx line 189; the GameBoard props carry no
configured maximum, so no input can change it. -/
theorem C9_claim :
    ∀ (hqs : List HQView) (powerUps : List PowerUpCell)
      (lastHQDamaged : Option HQEvent) (heartSelectionMode : Bool)
      (pendingHeartPlayer : Option Player) (isValidMove : Nat → Nat → Bool)
      (rows cols rowIndex colIndex : Nat) (cell : Cell),
    (mkBoardCellProps hqs powerUps lastHQDamaged heartSelectionMode
      pendingHeartPlayer isValidMove rows cols rowIndex colIndex
      cell).maxHqHealth = 5 :=
  fun _ _ _ _ _ _ _ _ _ _ _ => rfl

/-- C10: handleCellClick unconditionally plays the hit sound, records the
clicked cell, raises the animation flag, logs, forwards the click through
onCellClick and schedules a 200 ms timeout resetting the animation flag
to false, in that order; the effect list does not depend on the
isValidMove prop, so invalid clicks are forwarded too and validation is
left entirely to the engine. -/
theorem C10_claim :
    ∀ (f g : Nat → Nat → Bool) (row col : Nat),
    handleCellClick f row col
      = [UIEffect.playHit,
         UIEffect.setLastClickedCell row col,
         UIEffect.setIsAnimating true,
         UIEffect.logMessage,
         UIEffect.cellClick row col,
         UIEffect.setTimeout 200 [TimerAction.logMessage,
           TimerAction.setIsAnimatingTo false]]
    ∧ handleCellClick f row col = handleCellClick g row col :=
  fun _ _ _ _ => ⟨rfl, rfl⟩

end ChainReaction
